import Mathlib

/-! Shallow embedding of `src/transfer.py` (ftransfer): the receiver-side
incremental writer (`FileWriter`), the lazy writer dictionary, the transfer
lock manager, the receiver's metadata phase and stream loop, and the
post-verification retry loop, together with theorems about them.

Modelling conventions:
* bytes are `Nat`s and byte strings are `List Nat`;
* SHA-256 hashing is modelled by recording the exact byte sequence fed to
  the hasher (the arguments of `hashlib.sha256().update`); two digests are
  equal iff the fed byte sequences are equal;
* the filesystem effects of a single writer are modelled by `Wfs`, holding
  the contents of its `.part` file and of the final location the part is
  renamed to on completion (the conflict-resolution choice of the final
  *name* in `complete_file` is not modelled; no verified property depends
  on which free name the rename picks);
* lock-manager traffic is modelled by the list of `update_file_status`
  calls an operation performs (`LockEvent`s), applied to a `Lock` value;
* the claims assume no I/O errors, so environmental failures of
  `open`/`write`/`rename` are not modelled; deterministic failures that
  depend only on the modelled state (renaming a `.part` file that does not
  exist, reading a missing `.part` file during rehash) are modelled. -/

namespace Transfer

/-- Lock-file status strings (`pending | in_progress | completed | failed`). -/
inductive Status where
  | pending
  | in_progress
  | completed
  | failed
deriving DecidableEq

/-- One entry of the batch metadata `files` list as built by the sender
(src/transfer.py lines 1742-1748): `{'filename': …, 'size': …, 'offset': …}`. -/
structure FileInfo where
  filename : String
  size : Nat
  offset : Nat
deriving DecidableEq

/-- Writer-local filesystem view: the contents of the writer's `.part` file
(if it exists) and the contents placed at the final location (if the
completing rename has happened). -/
structure Wfs where
  partContent : Option (List Nat)
  finalContent : Option (List Nat)
deriving DecidableEq

/-- Filesystem state with no `.part` file and no final file. -/
def Wfs.empty : Wfs := { partContent := none, finalContent := none }

/-- One `update_file_status(filename, status, transferred_bytes, partial_hash)`
call issued to the lock manager. -/
structure LockEvent where
  filename : String
  status : Status
  transferred : Nat
  partialHash : Option (List Nat)
deriving DecidableEq

/-- State of a `FileWriter` (src/transfer.py, class `FileWriter`): the
fields set in `__init__` that the verified claims observe.  `hashedBytes`
is the byte sequence fed to `self.hasher` so far. -/
structure FileWriter where
  filename : String
  size : Nat
  offset : Nat
  written : Nat
  hashedBytes : List Nat
  is_complete : Bool
  needs_rehash : Bool
deriving DecidableEq

/-- `FileWriter.__init__`: `written = 0`, fresh hasher, not complete, no
rehash pending. -/
def FileWriter.init (filename : String) (size offset : Nat) : FileWriter :=
  { filename := filename, size := size, offset := offset, written := 0,
    hashedBytes := [], is_complete := false, needs_rehash := false }

/-- Result of a `FileWriter` operation: the new writer state, the new
filesystem view, and the `update_file_status` calls made. -/
structure FwStep where
  fw : FileWriter
  fs : Wfs
  events : List LockEvent
deriving DecidableEq

/-- `FileWriter.open_for_writing(resume_bytes)` (src/transfer.py 889-919).
The branch structure follows the source: a positive `resume_bytes` with an
existing part file is examined first (adopt when the on-disk size matches
and is short of `size`, otherwise start fresh); only otherwise does
`resume_bytes >= size` mark the writer complete; otherwise start fresh.
`mkdir(parents=True)` has no observable effect in this model. -/
def FileWriter.open_for_writing (w : FileWriter) (fs : Wfs) (resume_bytes : Nat) :
    FwStep :=
  if resume_bytes > 0 ∧ fs.partContent.isSome then
    let actual_size := (fs.partContent.getD []).length
    if actual_size = resume_bytes ∧ resume_bytes < w.size then
      { fw := { w with written := resume_bytes, needs_rehash := true },
        fs := fs,
        events := [⟨w.filename, .in_progress, resume_bytes, none⟩] }
    else
      { fw := { w with written := 0, hashedBytes := [] },
        fs := fs,
        events := [⟨w.filename, .pending, 0, none⟩] }
  else if resume_bytes ≥ w.size then
    { fw := { w with is_complete := true },
      fs := fs,
      events := [⟨w.filename, .completed, w.size, none⟩] }
  else
    { fw := { w with written := 0, hashedBytes := [] },
      fs := fs,
      events := [⟨w.filename, .pending, 0, none⟩] }

/-- `FileWriter._ensure_resume_hash` (src/transfer.py 921-945): when a
rehash is pending, re-feed the hasher from the part file (reporting an
`in_progress` update with the partial hash); if the part file cannot be
read, start fresh.  Always clears `needs_rehash`. -/
def FileWriter.ensure_resume_hash (w : FileWriter) (fs : Wfs) : FwStep :=
  if w.needs_rehash then
    match fs.partContent with
    | some content =>
        { fw := { w with hashedBytes := content, needs_rehash := false },
          fs := fs,
          events := [⟨w.filename, .in_progress, w.written, some content⟩] }
    | none =>
        { fw := { w with written := 0, hashedBytes := [], needs_rehash := false },
          fs := fs,
          events := [⟨w.filename, .pending, 0, none⟩] }
  else { fw := w, fs := fs, events := [] }

/-- `FileWriter.complete_file` (src/transfer.py 986-1032): when
`written == size` and the writer is not yet complete, rename the part file
to its final location (the conflict-resolved target name is abstracted),
set `is_complete`, and record completion with the final hash.  Renaming a
nonexistent part file raises `OSError`, which the source catches and logs:
the writer is left unchanged. -/
def FileWriter.complete_file (w : FileWriter) (fs : Wfs) : FwStep :=
  if w.written = w.size ∧ w.is_complete = false then
    match fs.partContent with
    | some content =>
        { fw := { w with is_complete := true },
          fs := { partContent := none, finalContent := some content },
          events := [⟨w.filename, .completed, w.size, some w.hashedBytes⟩] }
    | none => { fw := w, fs := fs, events := [] }
  else { fw := w, fs := fs, events := [] }

/-- Lock-file flush threshold used in `write_chunk`: 10 MiB. -/
def tenMiB : Nat := 10 * 1024 * 1024

/-- Result of `FileWriter.write_chunk`: final writer and filesystem state,
lock events, the bytes appended to the part file during the call, and the
Python return value. -/
structure WriteResult where
  fw : FileWriter
  fs : Wfs
  events : List LockEvent
  appended : List Nat
  ret : Nat
deriving DecidableEq

/-- Body of `FileWriter.write_chunk(data)` after the rehash step
(src/transfer.py 955-984), for a writer `w1` whose pending rehash has been
resolved: `bytes_to_write = min(len(data), size - written)` first bytes of
`data` are written to the part file (mode `'ab'` appends when
`written > 0`, mode `'wb'` truncates first), the hasher and `written` are
updated, an `in_progress` lock update fires every 10 MiB or at the end of
the file, and `complete_file` runs when `written >= size`.  Returns
`bytes_to_write`. -/
def FileWriter.write_chunk_core (w1 : FileWriter) (fs1 : Wfs) (data : List Nat) :
    WriteResult :=
  let n := min data.length (w1.size - w1.written)
  if 0 < n then
    let chunk := data.take n
    let base := if w1.written > 0 then (fs1.partContent.getD []) else []
    let fs2 : Wfs := { fs1 with partContent := some (base ++ chunk) }
    let newWritten := w1.written + n
    let w2 := { w1 with hashedBytes := w1.hashedBytes ++ chunk, written := newWritten }
    let lockEvs : List LockEvent :=
      if newWritten % tenMiB < n ∨ newWritten ≥ w2.size then
        [⟨w2.filename, .in_progress, newWritten, none⟩]
      else []
    if newWritten ≥ w2.size then
      let c := w2.complete_file fs2
      ⟨c.fw, c.fs, lockEvs ++ c.events, chunk, n⟩
    else
      ⟨w2, fs2, lockEvs, chunk, n⟩
  else
    ⟨w1, fs1, [], [], n⟩

/-- `FileWriter.write_chunk(data)` (src/transfer.py 947-984).  A complete
writer returns 0 immediately; otherwise the pending rehash is resolved and
the write proceeds as in `write_chunk_core`. -/
def FileWriter.write_chunk (w : FileWriter) (fs : Wfs) (data : List Nat) :
    WriteResult :=
  if w.is_complete then ⟨w, fs, [], [], 0⟩
  else
    let s1 := w.ensure_resume_hash fs
    let r := s1.fw.write_chunk_core s1.fs data
    ⟨r.fw, r.fs, s1.events ++ r.events, r.appended, r.ret⟩

/-- `FileWriter.reset_for_retry` (src/transfer.py 1038-1054): fresh hasher,
`written = 0`, not complete, no rehash, a `pending` lock update, and the
part file removed. -/
def FileWriter.reset_for_retry (w : FileWriter) (fs : Wfs) : FwStep :=
  let w' := { w with hashedBytes := [], written := 0, is_complete := false, needs_rehash := false }
  { fw := w',
    fs := { fs with partContent := none },
    events := [⟨w.filename, .pending, 0, none⟩] }

/-- `FileWriter.needs_data(stream_position)` (src/transfer.py 1056-1060). -/
def FileWriter.needs_data (w : FileWriter) (pos : Nat) : Bool :=
  decide (w.offset ≤ pos ∧ pos < w.offset + w.size) && !w.is_complete

/-- `FileWriter.get_hash` (src/transfer.py 1034-1036): the digest is
identified with the byte sequence fed to the hasher. -/
def FileWriter.get_hash (w : FileWriter) : List Nat := w.hashedBytes

example :
    ((FileWriter.init "a" 3 0).write_chunk Wfs.empty [7, 8, 9, 10]).ret = 3 := by
  decide

example :
    ((FileWriter.init "a" 3 0).write_chunk Wfs.empty [7, 8, 9, 10]).fw.is_complete
      = true := by
  decide

example :
    ((FileWriter.init "a" 3 0).write_chunk Wfs.empty [7, 8, 9, 10]).fs.finalContent
      = some [7, 8, 9] := by
  decide

/-- One entry of the lock file's `files` map
(`{status, size, transferred_bytes, partial_hash, …}`). -/
structure LockEntry where
  status : Status
  size : Nat
  transferred_bytes : Nat
  partialHash : Option (List Nat)
deriving DecidableEq

/-- The lock file's `files` map: relative path → entry (a JSON object, so
keys are unique in practice; the model does not rely on uniqueness). -/
abbrev Lock := List (String × LockEntry)

/-- Field update performed by `update_file_status` on one entry
(src/transfer.py 1328-1333): `status` and `transferred_bytes` are always
overwritten; `partial_hash` only when one is supplied (a hex digest is
never falsy); the `size` field is never touched. -/
def LockEntry.applyEvent (entry : LockEntry) (ev : LockEvent) : LockEntry :=
  { entry with
    status := ev.status
    transferred_bytes := ev.transferred
    partialHash := match ev.partialHash with
      | some h => some h
      | none => entry.partialHash }

/-- `TransferLockManager.update_file_status` (src/transfer.py 1318-1349),
with save batching abstracted away (batching changes when the lock reaches
disk, not its contents): a filename absent from the lock is ignored,
otherwise its entry is updated in place. -/
def update_file_status (lock : Lock) (ev : LockEvent) : Lock :=
  if lock.any (fun q => q.1 == ev.filename) then
    lock.map (fun q => if q.1 == ev.filename then (q.1, q.2.applyEvent ev) else q)
  else lock

/-- Apply a sequence of `update_file_status` calls in order. -/
def applyEvents (lock : Lock) (evs : List LockEvent) : Lock :=
  evs.foldl update_file_status lock

/-- `TransferLockManager.create_lock_file` (src/transfer.py 1252-1281):
every incoming file is recorded as `pending` with `transferred_bytes = 0`
and its metadata size. -/
def create_lock_file (files : List FileInfo) : Lock :=
  files.map (fun f => (f.filename,
    { status := .pending, size := f.size, transferred_bytes := 0,
      partialHash := none }))

/-- Combined state for the lock-invariant claim: the lock's `files` map and
the `FileWriter`s (each with its local filesystem view). -/
structure SysState where
  lock : Lock
  writers : List (FileWriter × Wfs)
deriving DecidableEq

/-- Forget a `WriteResult`'s instrumentation, keeping state and events. -/
def FwStep.ofWrite (r : WriteResult) : FwStep := ⟨r.fw, r.fs, r.events⟩

/-- Run a `FileWriter` operation on writer `i`, routing its
`update_file_status` calls to the lock. -/
def applyFw (s : SysState) (i : Nat) (f : FileWriter → Wfs → FwStep) : SysState :=
  match s.writers[i]? with
  | none => s
  | some (w, fs) =>
      let r := f w fs
      { lock := applyEvents s.lock r.events, writers := s.writers.set i (r.fw, r.fs) }

/-- Create a new `FileWriter` (with an arbitrary pre-existing on-disk part
file `fs0`). -/
def stepNewWriter (s : SysState) (name : String) (size offset : Nat) (fs0 : Wfs) :
    SysState :=
  { s with writers := s.writers ++ [(FileWriter.init name size offset, fs0)] }

/-- `open_for_writing` on writer `i`. -/
def stepOpen (s : SysState) (i rb : Nat) : SysState :=
  applyFw s i (fun w fs => w.open_for_writing fs rb)

/-- `write_chunk` on writer `i`. -/
def stepWrite (s : SysState) (i : Nat) (data : List Nat) : SysState :=
  applyFw s i (fun w fs => FwStep.ofWrite (w.write_chunk fs data))

/-- `complete_file` on writer `i`. -/
def stepComplete (s : SysState) (i : Nat) : SysState :=
  applyFw s i FileWriter.complete_file

/-- `reset_for_retry` on writer `i`. -/
def stepReset (s : SysState) (i : Nat) : SysState :=
  applyFw s i FileWriter.reset_for_retry

/-- States reachable by sequences of `TransferLockManager` and `FileWriter`
operations.  Writers are created with arbitrary size/offset and arbitrary
pre-existing part-file contents.  With the flag `true`, writer creation is
restricted to sizes that agree with the size already recorded in the lock
for that path — the situation in which the lock and the writers were built
from the same batch metadata. -/
inductive Reach (b : Bool) : SysState → Prop where
  | start : Reach b ⟨[], []⟩
  | createLock (files : List FileInfo) :
      Reach b ⟨[], []⟩ → Reach b ⟨create_lock_file files, []⟩
  | newWriter (s : SysState) (name : String) (size offset : Nat)
      (fs0 : Wfs) : Reach b s →
      (b = true → ∀ q ∈ s.lock, q.1 = name → q.2.size = size) →
      Reach b (stepNewWriter s name size offset fs0)
  | opOpen (s : SysState) (i rb : Nat) :
      Reach b s → Reach b (stepOpen s i rb)
  | opWrite (s : SysState) (i : Nat) (data : List Nat) :
      Reach b s → Reach b (stepWrite s i data)
  | opComplete (s : SysState) (i : Nat) :
      Reach b s → Reach b (stepComplete s i)
  | opReset (s : SysState) (i : Nat) :
      Reach b s → Reach b (stepReset s i)

/-- Spec invariant for one lock entry: `transferred_bytes ≤ size`, and a
`completed` entry has `transferred_bytes = size`. -/
def LockEntry.ok (e : LockEntry) : Prop :=
  e.transferred_bytes ≤ e.size ∧ (e.status = .completed → e.transferred_bytes = e.size)

instance (e : LockEntry) : Decidable e.ok := by
  unfold LockEntry.ok; infer_instance

/-- Spec invariant for the whole lock. -/
def lockOk (lock : Lock) : Prop := ∀ q ∈ lock, q.2.ok

/-- A lock update is compatible with a file of size `sz`. -/
def eventOk (sz : Nat) (ev : LockEvent) : Prop :=
  ev.transferred ≤ sz ∧ (ev.status = .completed → ev.transferred = sz)

/-- Internal invariant: the lock is `ok`, every writer has
`written ≤ size`, and every lock entry for a writer's path records that
writer's size. -/
def sysOk (s : SysState) : Prop :=
  lockOk s.lock ∧ ∀ p ∈ s.writers, p.1.written ≤ p.1.size ∧
    (∀ q ∈ s.lock, q.1 = p.1.filename → q.2.size = p.1.size)
theorem open_for_writing_ok (w : FileWriter) (fs : Wfs) (rb : Nat)
    (hw : w.written ≤ w.size) :
    (w.open_for_writing fs rb).fw.filename = w.filename ∧
    (w.open_for_writing fs rb).fw.size = w.size ∧
    (w.open_for_writing fs rb).fw.written ≤ w.size ∧
    ∀ ev ∈ (w.open_for_writing fs rb).events,
      ev.filename = w.filename ∧ eventOk w.size ev := by
  unfold FileWriter.open_for_writing
  dsimp only
  split_ifs with h1 h2 h3
  · refine ⟨rfl, rfl, Nat.le_of_lt h2.2, ?_⟩
    intro ev hev
    rw [List.mem_singleton] at hev
    subst hev
    exact ⟨rfl, Nat.le_of_lt h2.2, fun h => Status.noConfusion h⟩
  · refine ⟨rfl, rfl, Nat.zero_le _, ?_⟩
    intro ev hev
    rw [List.mem_singleton] at hev
    subst hev
    exact ⟨rfl, Nat.zero_le _, fun h => Status.noConfusion h⟩
  · refine ⟨rfl, rfl, hw, ?_⟩
    intro ev hev
    rw [List.mem_singleton] at hev
    subst hev
    exact ⟨rfl, Nat.le_refl _, fun _ => rfl⟩
  · refine ⟨rfl, rfl, Nat.zero_le _, ?_⟩
    intro ev hev
    rw [List.mem_singleton] at hev
    subst hev
    exact ⟨rfl, Nat.zero_le _, fun h => Status.noConfusion h⟩

theorem ensure_resume_hash_ok (w : FileWriter) (fs : Wfs)
    (hw : w.written ≤ w.size) :
    (w.ensure_resume_hash fs).fw.filename = w.filename ∧
    (w.ensure_resume_hash fs).fw.size = w.size ∧
    (w.ensure_resume_hash fs).fw.written ≤ w.size ∧
    (w.ensure_resume_hash fs).fw.is_complete = w.is_complete ∧
    ∀ ev ∈ (w.ensure_resume_hash fs).events,
      ev.filename = w.filename ∧ eventOk w.size ev := by
  unfold FileWriter.ensure_resume_hash
  split_ifs with h1
  · rcases hpc : fs.partContent with _ | content
    · refine ⟨rfl, rfl, Nat.zero_le _, rfl, ?_⟩
      intro ev hev
      rw [List.mem_singleton] at hev
      subst hev
      exact ⟨rfl, Nat.zero_le _, fun h => Status.noConfusion h⟩
    · refine ⟨rfl, rfl, hw, rfl, ?_⟩
      intro ev hev
      rw [List.mem_singleton] at hev
      subst hev
      exact ⟨rfl, hw, fun h => Status.noConfusion h⟩
  · exact ⟨rfl, rfl, hw, rfl, fun ev hev => absurd hev (List.not_mem_nil ev)⟩

theorem complete_file_ok (w : FileWriter) (fs : Wfs) (hw : w.written ≤ w.size) :
    (w.complete_file fs).fw.filename = w.filename ∧
    (w.complete_file fs).fw.size = w.size ∧
    (w.complete_file fs).fw.written ≤ w.size ∧
    ∀ ev ∈ (w.complete_file fs).events,
      ev.filename = w.filename ∧ eventOk w.size ev := by
  unfold FileWriter.complete_file
  split_ifs with h1
  · rcases hpc : fs.partContent with _ | content
    · exact ⟨rfl, rfl, hw, fun ev hev => absurd hev (List.not_mem_nil ev)⟩
    · refine ⟨rfl, rfl, hw, ?_⟩
      intro ev hev
      rw [List.mem_singleton] at hev
      subst hev
      exact ⟨rfl, Nat.le_refl _, fun _ => rfl⟩
  · exact ⟨rfl, rfl, hw, fun ev hev => absurd hev (List.not_mem_nil ev)⟩

theorem write_chunk_core_ok (w1 : FileWriter) (fs1 : Wfs) (data : List Nat)
    (hw : w1.written ≤ w1.size) :
    (w1.write_chunk_core fs1 data).fw.filename = w1.filename ∧
    (w1.write_chunk_core fs1 data).fw.size = w1.size ∧
    (w1.write_chunk_core fs1 data).fw.written ≤ w1.size ∧
    ∀ ev ∈ (w1.write_chunk_core fs1 data).events,
      ev.filename = w1.filename ∧ eventOk w1.size ev := by
  have hmin : min data.length (w1.size - w1.written) ≤ w1.size - w1.written :=
    Nat.min_le_right _ _
  unfold FileWriter.write_chunk_core FileWriter.complete_file
  dsimp only
  split_ifs with h1 h2 h3 h4 h5 h6 <;>
    refine ⟨rfl, rfl, by dsimp only; omega, ?_⟩ <;>
    intro ev hev <;>
    simp only [List.mem_append, List.mem_singleton, List.not_mem_nil, or_false,
      false_or] at hev <;>
    first
      | (rcases hev with rfl | rfl
         · exact ⟨rfl, by dsimp only; omega, fun h => Status.noConfusion h⟩
         · exact ⟨rfl, Nat.le_refl _, fun _ => rfl⟩)
      | (subst hev
         exact ⟨rfl, by dsimp only; omega, fun h => Status.noConfusion h⟩)
      | (subst hev
         exact ⟨rfl, Nat.le_refl _, fun _ => rfl⟩)

theorem write_chunk_ok (w : FileWriter) (fs : Wfs) (data : List Nat)
    (hw : w.written ≤ w.size) :
    (w.write_chunk fs data).fw.filename = w.filename ∧
    (w.write_chunk fs data).fw.size = w.size ∧
    (w.write_chunk fs data).fw.written ≤ w.size ∧
    ∀ ev ∈ (w.write_chunk fs data).events,
      ev.filename = w.filename ∧ eventOk w.size ev := by
  obtain ⟨hf, hs, hwr, hic, hevs⟩ := ensure_resume_hash_ok w fs hw
  unfold FileWriter.write_chunk
  by_cases hc : w.is_complete = true
  · rw [if_pos hc]
    exact ⟨rfl, rfl, hw, fun ev hev => absurd hev (List.not_mem_nil ev)⟩
  · rw [if_neg hc]
    dsimp only
    obtain ⟨cf, cs, cw, cevs⟩ :=
      write_chunk_core_ok (w.ensure_resume_hash fs).fw (w.ensure_resume_hash fs).fs
        data (by rw [hs]; exact hwr)
    refine ⟨by rw [cf, hf], by rw [cs, hs], by rw [← hs]; exact cw, ?_⟩
    intro ev hev
    rw [List.mem_append] at hev
    rcases hev with hev | hev
    · exact hevs ev hev
    · obtain ⟨he1, he2⟩ := cevs ev hev
      rw [hs] at he2
      exact ⟨by rw [he1, hf], he2⟩

theorem reset_for_retry_ok (w : FileWriter) (fs : Wfs) :
    (w.reset_for_retry fs).fw.filename = w.filename ∧
    (w.reset_for_retry fs).fw.size = w.size ∧
    (w.reset_for_retry fs).fw.written ≤ w.size ∧
    ∀ ev ∈ (w.reset_for_retry fs).events,
      ev.filename = w.filename ∧ eventOk w.size ev := by
  unfold FileWriter.reset_for_retry
  refine ⟨rfl, rfl, Nat.zero_le _, ?_⟩
  intro ev hev
  rw [List.mem_singleton] at hev
  subst hev
  exact ⟨rfl, Nat.zero_le _, fun h => Status.noConfusion h⟩

theorem LockEntry.applyEvent_size (e : LockEntry) (ev : LockEvent) :
    (e.applyEvent ev).size = e.size := rfl

theorem mem_update_file_status {lock : Lock} {ev : LockEvent}
    {q' : String × LockEntry} (h : q' ∈ update_file_status lock ev) :
    ∃ q, q ∈ lock ∧ q'.1 = q.1 ∧ q'.2.size = q.2.size ∧
      (q'.2 = q.2 ∨ (q.1 = ev.filename ∧ q'.2 = q.2.applyEvent ev)) := by
  unfold update_file_status at h
  split_ifs at h with hin
  · obtain ⟨q, hq, hmap⟩ := List.mem_map.1 h
    by_cases he : (q.1 == ev.filename) = true
    · rw [if_pos he] at hmap
      subst hmap
      exact ⟨q, hq, rfl, LockEntry.applyEvent_size q.2 ev,
        Or.inr ⟨eq_of_beq he, rfl⟩⟩
    · rw [if_neg he] at hmap
      subst hmap
      exact ⟨q, hq, rfl, rfl, Or.inl rfl⟩
  · exact ⟨q', h, rfl, rfl, Or.inl rfl⟩

theorem update_file_status_ok {lock : Lock} {ev : LockEvent} {wname : String}
    {wsize : Nat} (hev : ev.filename = wname ∧ eventOk wsize ev)
    (hok : lockOk lock)
    (hag : ∀ q ∈ lock, q.1 = wname → q.2.size = wsize) :
    lockOk (update_file_status lock ev) ∧
      (∀ q ∈ update_file_status lock ev, q.1 = wname → q.2.size = wsize) := by
  constructor
  · intro q' hq'
    obtain ⟨q, hq, h1, h2, h3⟩ := mem_update_file_status hq'
    rcases h3 with h3 | ⟨hqe, h3⟩
    · rw [h3]
      exact hok q hq
    · have hsz : q.2.size = wsize := hag q hq (hqe.trans hev.1)
      rw [h3]
      constructor
      · show ev.transferred ≤ (q.2.applyEvent ev).size
        rw [LockEntry.applyEvent_size, hsz]
        exact hev.2.1
      · intro hst
        show ev.transferred = (q.2.applyEvent ev).size
        rw [LockEntry.applyEvent_size, hsz]
        have hst' : ev.status = Status.completed := hst
        exact hev.2.2 hst'
  · intro q' hq' hqn
    obtain ⟨q, hq, h1, h2, _⟩ := mem_update_file_status hq'
    rw [h2]
    exact hag q hq (h1 ▸ hqn)

theorem mem_applyEvents {evs : List LockEvent} :
    ∀ {lock : Lock} {q' : String × LockEntry}, q' ∈ applyEvents lock evs →
      ∃ q, q ∈ lock ∧ q'.1 = q.1 ∧ q'.2.size = q.2.size := by
  induction evs with
  | nil =>
      intro lock q' h
      exact ⟨q', h, rfl, rfl⟩
  | cons ev rest ih =>
      intro lock q' h
      obtain ⟨qm, hm, h1, h2⟩ := ih h
      obtain ⟨q, hq, h3, h4, _⟩ := mem_update_file_status hm
      exact ⟨q, hq, h1.trans h3, h2.trans h4⟩

theorem applyEvents_ok {wname : String} {wsize : Nat} :
    ∀ (evs : List LockEvent) (lock : Lock),
      (∀ ev ∈ evs, ev.filename = wname ∧ eventOk wsize ev) →
      lockOk lock →
      (∀ q ∈ lock, q.1 = wname → q.2.size = wsize) →
      lockOk (applyEvents lock evs) ∧
        (∀ q ∈ applyEvents lock evs, q.1 = wname → q.2.size = wsize) := by
  intro evs
  induction evs with
  | nil =>
      intro lock _ hok hag
      exact ⟨hok, hag⟩
  | cons ev rest ih =>
      intro lock hevs hok hag
      have h1 := update_file_status_ok (hevs ev (List.mem_cons_self ev rest)) hok hag
      exact ih _ (fun e he => hevs e (List.mem_cons_of_mem _ he)) h1.1 h1.2

theorem sysOk_applyFw {s : SysState} (hs : sysOk s) (i : Nat)
    (f : FileWriter → Wfs → FwStep)
    (hf : ∀ w fs, w.written ≤ w.size →
      (f w fs).fw.filename = w.filename ∧ (f w fs).fw.size = w.size ∧
      (f w fs).fw.written ≤ w.size ∧
      ∀ ev ∈ (f w fs).events, ev.filename = w.filename ∧ eventOk w.size ev) :
    sysOk (applyFw s i f) := by
  unfold applyFw
  rcases hg : s.writers[i]? with _ | ⟨w, fsw⟩
  · exact hs
  · dsimp only
    have hwmem : (w, fsw) ∈ s.writers := List.getElem?_mem hg
    obtain ⟨hok, hws⟩ := hs
    obtain ⟨hwle, hagw⟩ := hws (w, fsw) hwmem
    obtain ⟨hf1, hf2, hf3, hf4⟩ := hf w fsw hwle
    have happ := applyEvents_ok ((f w fsw).events) s.lock
      (fun ev he => hf4 ev he) hok hagw
    constructor
    · exact happ.1
    · intro p hp
      rcases List.mem_or_eq_of_mem_set hp with hmem | heq
      · obtain ⟨hple, hpag⟩ := hws p hmem
        refine ⟨hple, ?_⟩
        intro q hq hqn
        obtain ⟨q0, hq0, hk, hsz⟩ := mem_applyEvents hq
        rw [hsz]
        exact hpag q0 hq0 (by rw [← hk]; exact hqn)
      · subst heq
        refine ⟨by rw [hf2]; exact hf3, ?_⟩
        intro q hq hqn
        rw [hf2]
        rw [hf1] at hqn
        exact happ.2 q hq hqn

theorem reach_sysOk {s : SysState} (h : Reach true s) : sysOk s := by
  induction h with
  | start =>
      exact ⟨fun q hq => absurd hq (List.not_mem_nil q),
        fun p hp => absurd hp (List.not_mem_nil p)⟩
  | createLock files h ih =>
      constructor
      · intro q hq
        obtain ⟨f, hf, hfe⟩ := List.mem_map.1 hq
        subst hfe
        exact ⟨Nat.zero_le _, fun hst => Status.noConfusion hst⟩
      · intro p hp
        exact absurd hp (List.not_mem_nil p)
  | newWriter s name size offset fs0 h hagree ih =>
      obtain ⟨hok, hws⟩ := ih
      constructor
      · exact hok
      · intro p hp
        simp only [stepNewWriter] at hp
        rcases List.mem_append.1 hp with hp | hp
        · exact hws p hp
        · rw [List.mem_singleton] at hp
          subst hp
          exact ⟨Nat.zero_le _, fun q hq hqn => hagree rfl q hq hqn⟩
  | opOpen s i rb h ih =>
      exact sysOk_applyFw ih i _ (fun w fs hw => open_for_writing_ok w fs rb hw)
  | opWrite s i data h ih =>
      exact sysOk_applyFw ih i _ (fun w fs hw => write_chunk_ok w fs data hw)
  | opComplete s i h ih =>
      exact sysOk_applyFw ih i _ (fun w fs hw => complete_file_ok w fs hw)
  | opReset s i h ih =>
      exact sysOk_applyFw ih i _ (fun w fs _ => reset_for_retry_ok w fs)

/-- Constrained trace: lock created for `f` of size 5, then a writer of the
same size 5 writes 3 of its 5 bytes. -/
def c7GoodState : SysState :=
  stepWrite
    (stepOpen (stepNewWriter ⟨create_lock_file [⟨"f", 5, 0⟩], []⟩ "f" 5 0 Wfs.empty) 0 0)
    0 [9, 9, 9]

/-- Unconstrained trace: lock created for `f` of size 5 (a previous
session), then — after the sender's file shrank to 3 bytes — a writer of
size 3 is created for the same path (`get_resume_plan` classifies a size
mismatch as `fresh` but `update_file_status` never updates the recorded
size) and receives its 3 bytes, completing. -/
def c7BadState : SysState :=
  stepWrite
    (stepOpen (stepNewWriter ⟨create_lock_file [⟨"f", 5, 0⟩], []⟩ "f" 3 0 Wfs.empty) 0 0)
    0 [9, 9, 9]

/-- C7 (amended): for every lock-file state reachable by sequences of
`FileWriter` and `TransferLockManager` operations in which every created
writer's size agrees with the size recorded in the lock for its path (as
holds when lock and writers are built from the same batch metadata), every
file entry satisfies `transferred_bytes ≤ size`, and every entry with
status `completed` satisfies `transferred_bytes = size`. -/
theorem c7_lock_invariant {s : SysState} (h : Reach true s) :
    ∀ q ∈ s.lock, q.2.transferred_bytes ≤ q.2.size ∧
      (q.2.status = Status.completed → q.2.transferred_bytes = q.2.size) :=
  fun q hq => (reach_sysOk h).1 q hq

/-- The lock entry of `c7GoodState` (three of five bytes written, the last
lock update at the `pending` stage since no 10 MiB boundary was crossed). -/
def c7GoodEntry : String × LockEntry :=
  ("f", { status := Status.pending, size := 5, transferred_bytes := 0,
          partialHash := none })

/-- C7 witness: the invariant instantiated at the concrete size-agreeing
trace `c7GoodState` and its lock entry. -/
theorem c7_lock_invariant_witness :
    c7GoodEntry.2.transferred_bytes ≤ c7GoodEntry.2.size ∧
      (c7GoodEntry.2.status = Status.completed →
        c7GoodEntry.2.transferred_bytes = c7GoodEntry.2.size) :=
  c7_lock_invariant
    (show Reach true c7GoodState from
      Reach.opWrite _ _ _ (Reach.opOpen _ _ _ (Reach.newWriter _ _ _ _ _
        (Reach.createLock _ Reach.start) (fun _ => by decide))))
    c7GoodEntry (by decide)

/-- C7 (counterexample): the claim as stated — over every state reachable
by `FileWriter` and `TransferLockManager` operations — is false: the
size-changed-resume trace `c7BadState` is reachable and ends with the `f`
entry `completed` while `transferred_bytes = 3 < 5 = size`, because
`update_file_status` never touches the recorded `size`. -/
theorem c7_counterexample :
    Reach false c7BadState ∧
    ¬ (∀ q ∈ c7BadState.lock, q.2.transferred_bytes ≤ q.2.size ∧
        (q.2.status = Status.completed → q.2.transferred_bytes = q.2.size)) :=
  ⟨Reach.opWrite _ _ _ (Reach.opOpen _ _ _ (Reach.newWriter _ _ _ _ _
      (Reach.createLock _ Reach.start) (fun hb => absurd hb (by decide)))),
    by decide⟩

/-- Containment of two consecutive dots in a character list: Python's
`".." in filename` (substring containment, not `..` path segments). -/
def containsDotDot : List Char → Bool
  | [] => false
  | [_] => false
  | c1 :: c2 :: rest => (c1 == '.' && c2 == '.') || containsDotDot (c2 :: rest)

/-- Python `os.path.isabs(filename) or ".." in filename`
(src/transfer.py 2288): POSIX `isabs` is a leading `/`; `in` is substring
containment, both computed on the character list. -/
def isUnsafeFilename (s : String) : Bool :=
  (match s.data with
   | '/' :: _ => true
   | _ => false) || containsDotDot s.data

/-- The receiver's unsafe-filename filter (src/transfer.py 2284-2297):
unsafe entries are skipped with a warning and the transfer continues with
the remaining entries. -/
def safe_files_info (files : List FileInfo) : List FileInfo :=
  files.filter (fun f => !isUnsafeFilename f.filename)

/-- Decrypted batch metadata record (src/transfer.py 2209-2220).  `mtype`
models the JSON key `type`. -/
structure Metadata where
  mtype : String
  file_count : Nat
  total_size : Nat
  compressed : Bool
  files : List FileInfo
deriving DecidableEq

/-- The one way the receiver aborts before its data loop
(src/transfer.py 2212-2214: `sys.exit(1)` on a non-`stream` type). -/
inductive AbortKind where
  | unsupportedProtocol
deriving DecidableEq

/-- The receiver's metadata phase (src/transfer.py 2211-2306): the only
validating check is `metadata.get('type') != 'stream'`, which exits;
unsafe filenames are then filtered out (not an abort) and the surviving
list seeds the lazy writer dictionary.  No offset-consistency,
size-consistency or path-collision check exists in the source. -/
def receiveMetadataPhase (m : Metadata) : Except AbortKind (List FileInfo) :=
  if m.mtype ≠ "stream" then Except.error AbortKind.unsupportedProtocol
  else Except.ok (safe_files_info m.files)

/-- Stable insertion by start offset: model of Python's stable
`self._offset_index.sort(key=lambda x: x[0])` (src/transfer.py 1101). -/
def insertByStart (e : Nat × Nat × String) :
    List (Nat × Nat × String) → List (Nat × Nat × String)
  | [] => [e]
  | x :: xs => if x.1 < e.1 then x :: insertByStart e xs else e :: x :: xs

/-- Sort the offset index by start offset (stable). -/
def sortByStart (l : List (Nat × Nat × String)) : List (Nat × Nat × String) :=
  l.foldr insertByStart []

/-- `LazyFileWriterDict` (src/transfer.py 1067-1181): file metadata, the
resume dictionary, the start-sorted `(start, end, filename)` offset index,
and the writers created so far (keyed by filename, in creation order). -/
structure LazyWriters where
  filesInfo : List FileInfo
  resumeDict : List (String × Nat)
  offsetIndex : List (Nat × Nat × String)
  writers : List (String × FileWriter × Wfs)
deriving DecidableEq

/-- `LazyFileWriterDict.__init__` (src/transfer.py 1075-1101). -/
def LazyWriters.init (files : List FileInfo) (resume : List (String × Nat)) :
    LazyWriters :=
  { filesInfo := files, resumeDict := resume,
    offsetIndex :=
      sortByStart (files.map (fun f => (f.offset, f.offset + f.size, f.filename))),
    writers := [] }

/-- Look up a created writer by filename. -/
def lookupWriter (ws : List (String × FileWriter × Wfs)) (name : String) :
    Option (FileWriter × Wfs) :=
  (ws.find? (fun p => p.1 == name)).map (fun p => p.2)

/-- Replace the stored state of the writer keyed `name`. -/
def setWriter (ws : List (String × FileWriter × Wfs)) (name : String)
    (w : FileWriter) (fs : Wfs) : List (String × FileWriter × Wfs) :=
  ws.map (fun p => if p.1 == name then (p.1, w, fs) else p)

/-- `LazyFileWriterDict.__getitem__` (src/transfer.py 1103-1124): return
the existing writer, or create one on first access (`FileWriter(...)`
followed by `open_for_writing(resume_bytes)`, `resume_bytes` defaulting to
0 when the filename is not in the resume dictionary).  `none` models the
`KeyError` for a filename not in the transfer.  Writers are created over
an empty on-disk state (fresh transfer; pre-existing part files are
covered by the unit-level `open_for_writing` theorems). -/
def LazyWriters.getWriter (lw : LazyWriters) (name : String) :
    Option (LazyWriters × (FileWriter × Wfs) × List LockEvent) :=
  match lookupWriter lw.writers name with
  | some wf => some (lw, wf, [])
  | none =>
    match lw.filesInfo.find? (fun f => f.filename == name) with
    | none => none
    | some fi =>
      let rb := ((lw.resumeDict.find? (fun p => p.1 == name)).map (fun p => p.2)).getD 0
      let st := (FileWriter.init fi.filename fi.size fi.offset).open_for_writing
        Wfs.empty rb
      some ({ lw with writers := lw.writers ++ [(name, st.fw, st.fs)] },
        (st.fw, st.fs), st.events)

/-- `bisect.bisect_right(self._offset_index, (stream_position, inf, ""))`
(src/transfer.py 1173) on the start-sorted index returns the number of
entries whose start is `≤ p` (every finite end compares below `inf`), and
the source then inspects `index[idx-1]`: the last entry whose start is
`≤ p`.  On a start-sorted list those entries form a prefix, so
`index[idx-1]` is the last element of the filtered list. -/
def bisectSelect (index : List (Nat × Nat × String)) (p : Nat) :
    Option (Nat × Nat × String) :=
  (index.filter (fun e => e.1 ≤ p)).getLast?

/-- `LazyFileWriterDict.get_writer_at_offset` (src/transfer.py 1157-1181):
select the entry found by the bisection when its `[start, end)` interval
contains the stream position, creating that file's writer on demand;
`none` when the position is beyond all files. -/
def LazyWriters.get_writer_at_offset (lw : LazyWriters) (p : Nat) :
    Option (LazyWriters × String × (FileWriter × Wfs) × List LockEvent) :=
  match bisectSelect lw.offsetIndex p with
  | none => none
  | some (s, e, name) =>
    if s ≤ p ∧ p < e then
      match lw.getWriter name with
      | none => none
      | some (lw2, wf, evs) => some (lw2, name, wf, evs)
    else none

/-- Receiver-loop state: the lazy writer dictionary plus the lock events
issued so far. -/
structure RecvSt where
  lw : LazyWriters
  events : List LockEvent
deriving DecidableEq

/-- One iteration of the receiver's inner write loop
(src/transfer.py 2434-2448): find the writer at the stream position
(creating it on demand); if it `needs_data` there, `write_chunk` the
remaining bytes.  Returns the updated state and `bytes_written`. -/
def recvInnerStep (st : RecvSt) (pos : Nat) (rem : List Nat) : RecvSt × Nat :=
  match st.lw.get_writer_at_offset pos with
  | none => (st, 0)
  | some (lw2, name, (w, fsw), openEvs) =>
    if w.needs_data pos then
      let r := w.write_chunk fsw rem
      ({ lw := { lw2 with writers := setWriter lw2.writers name r.fw r.fs },
         events := st.events ++ openEvs ++ r.events }, r.ret)
    else
      ({ lw := lw2, events := st.events ++ openEvs }, 0)

/-- Fuel-indexed form of the receiver's inner write loop: each productive
iteration consumes at least one byte of `rem`, so `rem.length` steps
suffice and the fuel bound of the wrapper `recvWriteLoop` is never hit
(at fuel 0 the remainder is already empty). -/
def recvWriteLoopGo : Nat → RecvSt → Nat → List Nat → RecvSt
  | 0, st, _, _ => st
  | fuel + 1, st, pos, rem =>
    if rem = [] then st
    else
      if (recvInnerStep st pos rem).2 = 0 then (recvInnerStep st pos rem).1
      else
        recvWriteLoopGo fuel (recvInnerStep st pos rem).1
          (pos + (recvInnerStep st pos rem).2) (rem.drop (recvInnerStep st pos rem).2)

/-- The receiver's inner write loop (src/transfer.py 2434-2448): advance
through the chunk while a writer accepts bytes; a zero-byte step discards
the rest of the chunk (`chunk_offset = len(chunk)`). -/
def recvWriteLoop (st : RecvSt) (pos : Nat) (rem : List Nat) : RecvSt :=
  recvWriteLoopGo rem.length st pos rem

/-- One framed record arriving in the receiver's data loop, after
decryption: the 4-zero-byte end marker read in the nonce-length slot, or a
data block with its decrypted payload.  `isHashJson` records whether the
payload parses as a JSON object with string keys — the property the
`json.loads`-based sniffing tests (src/transfer.py 2389-2400); it is a
function of the payload bytes, carried as a field because JSON parsing
itself is not modelled. -/
inductive StreamRec where
  | endMarker
  | block (isHashJson : Bool) (plain : List Nat)
deriving DecidableEq

/-- How the data loop ended. -/
inductive LoopEnd where
  | endMarker
  | hashRecord
  | outOfInput
deriving DecidableEq

/-- Result of the receiver's data loop. -/
structure LoopResult where
  st : RecvSt
  stream_position : Nat
  total_bytes_received : Nat
  ended : LoopEnd
deriving DecidableEq

/-- The receiver's data loop (src/transfer.py 2362-2464), with compression
off (`compressed = false`, so `chunk = decrypted_data`): stop at the end
marker (`break` at 2374-2375) or at a block that sniffs as hash JSON
(`break` at 2430-2431); otherwise distribute the chunk through the inner
write loop and add its length to `stream_position` and
`total_bytes_received` (2450-2451).  `outOfInput` models the socket
yielding no further record.  The loop never consults the metadata
`total_size`: it is not even a parameter. -/
def recvDataLoop (st : RecvSt) (pos total : Nat) :
    List StreamRec → LoopResult
  | [] => ⟨st, pos, total, LoopEnd.outOfInput⟩
  | StreamRec.endMarker :: _ => ⟨st, pos, total, LoopEnd.endMarker⟩
  | StreamRec.block true _ :: _ => ⟨st, pos, total, LoopEnd.hashRecord⟩
  | StreamRec.block false plain :: rest =>
      recvDataLoop (recvWriteLoop st pos plain) (pos + plain.length)
        (total + plain.length) rest

/-- The receiver front-end (src/transfer.py 2202-2464): metadata phase,
then the data loop over an initially empty output directory with no resume
data. -/
def receiverRun (m : Metadata) (recs : List StreamRec) :
    Except AbortKind LoopResult :=
  (receiveMetadataPhase m).map
    (fun safeFiles => recvDataLoop ⟨LazyWriters.init safeFiles [], []⟩ 0 0 recs)

/-- Payloads of the data blocks strictly before the first terminator. -/
def dataBlocksBeforeEnd : List StreamRec → List (List Nat)
  | [] => []
  | StreamRec.endMarker :: _ => []
  | StreamRec.block true _ :: _ => []
  | StreamRec.block false plain :: rest => plain :: dataBlocksBeforeEnd rest

/-- The terminator the loop will hit on a given record list. -/
def streamTerminator : List StreamRec → LoopEnd
  | [] => LoopEnd.outOfInput
  | StreamRec.endMarker :: _ => LoopEnd.endMarker
  | StreamRec.block true _ :: _ => LoopEnd.hashRecord
  | StreamRec.block false _ :: rest => streamTerminator rest

example :
    (recvDataLoop ⟨LazyWriters.init [⟨"a", 1, 0⟩] [], []⟩ 0 0
      [StreamRec.block false [7, 8], StreamRec.endMarker]).total_bytes_received
      = 2 := by decide

theorem lookupWriter_none_iff {ws : List (String × FileWriter × Wfs)}
    {name : String} :
    lookupWriter ws name = none ↔ ∀ p ∈ ws, (p.1 == name) = false := by
  unfold lookupWriter
  rw [Option.map_eq_none', List.find?_eq_none]
  simp [Bool.not_eq_true]

theorem setWriter_absent {ws : List (String × FileWriter × Wfs)}
    {other name : String} {w : FileWriter} {fs : Wfs}
    (h : lookupWriter ws name = none) :
    lookupWriter (setWriter ws other w fs) name = none := by
  rw [lookupWriter_none_iff] at h ⊢
  intro p hp
  obtain ⟨q, hq, hqe⟩ := List.mem_map.1 hp
  by_cases hb : (q.1 == other) = true
  · rw [if_pos hb] at hqe
    subst hqe
    exact h q hq
  · rw [if_neg hb] at hqe
    subst hqe
    exact h q hq

/-- A filename not part of the batch: no metadata entry carries it and no
writer has been created for it. -/
def nameAbsent (lw : LazyWriters) (name : String) : Prop :=
  (∀ fi ∈ lw.filesInfo, fi.filename ≠ name) ∧ lookupWriter lw.writers name = none

theorem getWriter_absent {lw : LazyWriters} {other : String}
    {r : LazyWriters × (FileWriter × Wfs) × List LockEvent}
    (h : lw.getWriter other = some r) {name : String}
    (ha : nameAbsent lw name) : nameAbsent r.1 name := by
  unfold LazyWriters.getWriter at h
  rcases hlu : lookupWriter lw.writers other with _ | wf
  · rw [hlu] at h
    rcases hfind : lw.filesInfo.find? (fun f => f.filename == other) with _ | fi
    · rw [hfind] at h
      exact absurd h (by simp)
    · rw [hfind] at h
      dsimp only at h
      cases h
      have hpa := List.find?_some hfind
      have hfo : fi.filename = other := eq_of_beq hpa
      have hfm : fi ∈ lw.filesInfo := List.mem_of_find?_eq_some hfind
      have hon : other ≠ name := hfo ▸ ha.1 fi hfm
      refine ⟨ha.1, ?_⟩
      rw [lookupWriter_none_iff]
      intro p hp
      rcases List.mem_append.1 hp with hp | hp
      · exact lookupWriter_none_iff.1 ha.2 p hp
      · rw [List.mem_singleton] at hp
        subst hp
        exact beq_eq_false_iff_ne.2 hon
  · rw [hlu] at h
    cases h
    exact ha

theorem get_writer_at_offset_absent {lw : LazyWriters} {p : Nat}
    {r : LazyWriters × String × (FileWriter × Wfs) × List LockEvent}
    (h : lw.get_writer_at_offset p = some r) {name : String}
    (ha : nameAbsent lw name) : nameAbsent r.1 name := by
  unfold LazyWriters.get_writer_at_offset at h
  rcases hb : bisectSelect lw.offsetIndex p with _ | ⟨s, e, nm⟩
  · rw [hb] at h
    exact absurd h (by simp)
  · rw [hb] at h
    dsimp only at h
    by_cases hcond : s ≤ p ∧ p < e
    · rw [if_pos hcond] at h
      rcases hg : lw.getWriter nm with _ | r2
      · rw [hg] at h
        exact absurd h (by simp)
      · rw [hg] at h
        cases h
        exact getWriter_absent hg ha
    · rw [if_neg hcond] at h
      exact absurd h (by simp)

theorem recvInnerStep_absent (st : RecvSt) (pos : Nat) (rem : List Nat)
    {name : String} (ha : nameAbsent st.lw name) :
    nameAbsent (recvInnerStep st pos rem).1.lw name := by
  unfold recvInnerStep
  rcases hg : st.lw.get_writer_at_offset pos with _ | ⟨lw2, nm, ⟨w, fsw⟩, evs⟩
  · exact ha
  · have ha2 := get_writer_at_offset_absent hg ha
    dsimp only
    split_ifs with hnd
    · exact ⟨ha2.1, setWriter_absent ha2.2⟩
    · exact ha2

theorem recvWriteLoopGo_absent (fuel : Nat) :
    ∀ (st : RecvSt) (pos : Nat) (rem : List Nat) {name : String},
      nameAbsent st.lw name →
      nameAbsent (recvWriteLoopGo fuel st pos rem).lw name := by
  induction fuel with
  | zero =>
      intro st pos rem name ha
      exact ha
  | succ fuel ih =>
      intro st pos rem name ha
      rw [recvWriteLoopGo]
      split_ifs with h1 h2
      · exact ha
      · exact recvInnerStep_absent st pos rem ha
      · exact ih _ _ _ (recvInnerStep_absent st pos rem ha)

theorem recvWriteLoop_absent (st : RecvSt) (pos : Nat) (rem : List Nat)
    {name : String} (ha : nameAbsent st.lw name) :
    nameAbsent (recvWriteLoop st pos rem).lw name :=
  recvWriteLoopGo_absent rem.length st pos rem ha

theorem recvDataLoop_absent (st : RecvSt) (pos total : Nat)
    (recs : List StreamRec) {name : String} (ha : nameAbsent st.lw name) :
    nameAbsent (recvDataLoop st pos total recs).st.lw name := by
  induction recs generalizing st pos total with
  | nil => exact ha
  | cons r rest ih =>
      cases r with
      | endMarker => exact ha
      | block isHash plain =>
          cases isHash with
          | true => exact ha
          | false =>
              exact ih (recvWriteLoop st pos plain) (pos + plain.length)
                (total + plain.length) (recvWriteLoop_absent st pos plain ha)

/-- Concrete batch for C1: one safe entry and one unsafe entry. -/
def c1Meta : Metadata :=
  ⟨"stream", 2, 2, false, [⟨"a.txt", 1, 0⟩, ⟨"../evil", 1, 1⟩]⟩

/-- Stream for C1: one 2-byte data block, then the end marker. -/
def c1Recs : List StreamRec :=
  [StreamRec.block false [7, 8], StreamRec.endMarker]

/-- Data-loop result for C1. -/
def c1Result : LoopResult :=
  recvDataLoop ⟨LazyWriters.init (safe_files_info c1Meta.files) [], []⟩ 0 0 c1Recs

example : isUnsafeFilename "../evil" = true := by decide
example : (receiveMetadataPhase c1Meta).isOk = true := by decide
example : safe_files_info c1Meta.files = [⟨"a.txt", 1, 0⟩] := by decide
example : c1Result.ended = LoopEnd.endMarker := by decide
example : (c1Result.st.lw.writers).length = 1 := by decide
example : (c1Result.st.lw.writers).map Prod.fst = ["a.txt"] := by decide
example : ((c1Result.st.lw.writers).find? (fun p => p.1 == "a.txt")).isSome = true := by decide

/-- C1 (counterexample): the batch `c1Meta` contains the unsafe path
`"../evil"`, yet the receiver does not reject the transfer: the metadata
phase succeeds (no abort), and the data loop creates, fills and completes
the final file for the safe entry `"a.txt"` with the received byte — so a
part file and a final file ARE produced for a batch containing an unsafe
path, contradicting the claim that no file is created for any entry of
such a batch. -/
theorem c1_counterexample :
    isUnsafeFilename "../evil" = true ∧
    (receiveMetadataPhase c1Meta).isOk = true ∧
    lookupWriter c1Result.st.lw.writers "a.txt" =
      some ({ filename := "a.txt", size := 1, offset := 0, written := 1,
              hashedBytes := [7], is_complete := true, needs_rehash := false },
            { partContent := none, finalContent := some [7] }) := by
  decide

/-- C1 (amended): the receiver skips each unsafe metadata entry and
continues with the rest: after the metadata phase no surviving entry
carries an unsafe filename, and the data loop never creates a writer —
hence neither a part file nor a final file — for an unsafe filename. -/
theorem c1_unsafe_skipped_no_writer (m : Metadata) (recs : List StreamRec)
    (name : String) (hu : isUnsafeFilename name = true)
    (safeFiles : List FileInfo)
    (hm : receiveMetadataPhase m = Except.ok safeFiles) :
    (∀ fi ∈ safeFiles, fi.filename ≠ name) ∧
    lookupWriter
      (recvDataLoop ⟨LazyWriters.init safeFiles [], []⟩ 0 0 recs).st.lw.writers
      name = none := by
  have hsafe : safeFiles = safe_files_info m.files := by
    unfold receiveMetadataPhase at hm
    by_cases ht : m.mtype ≠ "stream"
    · rw [if_pos ht] at hm
      exact absurd hm (by simp)
    · rw [if_neg ht] at hm
      exact (Except.ok.inj hm).symm
  have h1 : ∀ fi ∈ safeFiles, fi.filename ≠ name := by
    intro fi hfi he
    rw [hsafe] at hfi
    have hpf := List.of_mem_filter hfi
    rw [he] at hpf
    simp [hu] at hpf
  have ha : nameAbsent (LazyWriters.init safeFiles []) name := ⟨h1, rfl⟩
  exact ⟨h1, (recvDataLoop_absent _ 0 0 recs ha).2⟩

/-- C1 witness: the amended claim applied to the concrete batch `c1Meta`,
the unsafe name `"../evil"`, and the stream `c1Recs`. -/
theorem c1_unsafe_skipped_no_writer_witness :
    (∀ fi ∈ [(⟨"a.txt", 1, 0⟩ : FileInfo)], fi.filename ≠ "../evil") ∧
    lookupWriter
      (recvDataLoop ⟨LazyWriters.init [⟨"a.txt", 1, 0⟩] [], []⟩ 0 0
        c1Recs).st.lw.writers "../evil" = none :=
  c1_unsafe_skipped_no_writer c1Meta c1Recs "../evil" (by decide)
    [⟨"a.txt", 1, 0⟩] rfl

/-- Offset/size consistency the spec requires of the metadata:
`offset[i+1] = offset[i] + size[i]` over the listed order.  (Modelled from
the spec for comparison only: the receiver performs no such check.) -/
def offsetsConsistent : List FileInfo → Bool
  | [] => true
  | [_] => true
  | a :: b :: rest => (b.offset == a.offset + a.size) && offsetsConsistent (b :: rest)

/-- Concrete metadata for C2: `type = "stream"` but inconsistent offsets
(`offset[1] = 5 ≠ 0 + 1 = offset[0] + size[0]`). -/
def c2Meta : Metadata := ⟨"stream", 2, 2, false, [⟨"a", 1, 0⟩, ⟨"b", 1, 5⟩]⟩

/-- C2 (counterexample): metadata whose offsets are inconsistent with the
listed sizes is accepted: the metadata phase returns the full file list
and the receiver proceeds to the data loop instead of aborting with a
protocol error. -/
theorem c2_counterexample :
    offsetsConsistent c2Meta.files = false ∧
    receiveMetadataPhase c2Meta = Except.ok [⟨"a", 1, 0⟩, ⟨"b", 1, 5⟩] :=
  ⟨by decide, rfl⟩

/-- C2 (amended): the receiver's only metadata check before the data loop
is `type == "stream"` — a mismatch exits, and on a match the phase always
succeeds, merely filtering out unsafe paths (they are skipped, not an
abort); no offset-monotonicity/size-consistency validation and no
path-collision check is performed (none exists in the source:
src/transfer.py 2211-2306). -/
theorem c2_metadata_validation (m : Metadata) :
    (m.mtype = "stream" →
      receiveMetadataPhase m = Except.ok (safe_files_info m.files)) ∧
    (m.mtype ≠ "stream" →
      receiveMetadataPhase m = Except.error AbortKind.unsupportedProtocol) := by
  constructor
  · intro h
    unfold receiveMetadataPhase
    rw [if_neg (by simp [h])]
  · intro h
    unfold receiveMetadataPhase
    rw [if_pos h]

/-- C2 witness: both branches of the amended claim at concrete metadata. -/
theorem c2_metadata_validation_witness :
    receiveMetadataPhase c2Meta = Except.ok [⟨"a", 1, 0⟩, ⟨"b", 1, 5⟩] ∧
    receiveMetadataPhase ⟨"files", 0, 0, false, []⟩ =
      Except.error AbortKind.unsupportedProtocol :=
  ⟨(c2_metadata_validation c2Meta).1 rfl,
    (c2_metadata_validation ⟨"files", 0, 0, false, []⟩).2 (by decide)⟩

/-- Concrete metadata for C3: one 5-byte file, `total_size = 5`. -/
def c3Meta : Metadata := ⟨"stream", 1, 5, false, [⟨"a", 5, 0⟩]⟩

/-- Stream for C3: a single 1-byte data block, then the end marker — the
sender stops 4 bytes short of `total_size`. -/
def c3Recs : List StreamRec := [StreamRec.block false [1], StreamRec.endMarker]

/-- Data-loop result for C3. -/
def c3Result : LoopResult :=
  recvDataLoop ⟨LazyWriters.init (safe_files_info c3Meta.files) [], []⟩ 0 0 c3Recs

/-- C3 (counterexample): with `total_size = 5` the stream ends (end
marker) after only 1 plaintext byte, and the receiver treats the data
phase as over without any protocol error — the loop result is a normal
`endMarker` end (the source compares nothing against `total_size`; its
data loop has no failure path for a byte-count mismatch). -/
theorem c3_counterexample :
    c3Meta.total_size = 5 ∧
    (receiveMetadataPhase c3Meta).isOk = true ∧
    c3Result.ended = LoopEnd.endMarker ∧
    c3Result.total_bytes_received = 1 := by
  decide

/-- C3 (amended): the receiver's data loop ends exactly at the first end
marker or hash-sniffed JSON block, regardless of byte count: its end kind
is `streamTerminator recs` and the bytes received are the sum of the data
block lengths before that terminator.  `total_size` plays no role: it is
not even an input of the loop. -/
theorem c3_loop_end_characterisation (st : RecvSt) (pos total : Nat)
    (recs : List StreamRec) :
    (recvDataLoop st pos total recs).ended = streamTerminator recs ∧
    (recvDataLoop st pos total recs).total_bytes_received =
      total + ((dataBlocksBeforeEnd recs).map List.length).sum := by
  induction recs generalizing st pos total with
  | nil =>
      simp [recvDataLoop, streamTerminator, dataBlocksBeforeEnd]
  | cons r rest ih =>
      cases r with
      | endMarker =>
          simp [recvDataLoop, streamTerminator, dataBlocksBeforeEnd]
      | block isHash plain =>
          cases isHash with
          | true =>
              simp [recvDataLoop, streamTerminator, dataBlocksBeforeEnd]
          | false =>
              simp only [recvDataLoop, streamTerminator, dataBlocksBeforeEnd,
                List.map_cons, List.sum_cons]
              obtain ⟨h1, h2⟩ := ih (recvWriteLoop st pos plain)
                (pos + plain.length) (total + plain.length)
              exact ⟨h1, by rw [h2]; omega⟩

/-- Concrete metadata for C4: a batch holding one empty file. -/
def c4Meta : Metadata := ⟨"stream", 1, 0, false, [⟨"empty.txt", 0, 0⟩]⟩

/-- Stream for C4: the sender has no data to send, so only the end marker
arrives in the data loop. -/
def c4Recs : List StreamRec := [StreamRec.endMarker]

/-- Data-loop result for C4. -/
def c4Result : LoopResult :=
  recvDataLoop ⟨LazyWriters.init (safe_files_info c4Meta.files) [], []⟩ 0 0 c4Recs

/-- C4: a successful transfer of a batch containing the single empty file
`empty.txt` creates NO writer at all — `get_writer_at_offset` selects a
file only when `start ≤ p < start + size` (src/transfer.py 1177),
impossible for `size = 0` at any position `p`, and the verification phase
iterates only over created writers (`file_writers.values()`,
src/transfer.py 2481).  So the empty file is never created on disk and
never marked complete, contradicting the claim: the writers map stays
empty, and indeed no stream position ever selects the empty file. -/
theorem c4_empty_file_never_created :
    ((receiveMetadataPhase c4Meta).isOk = true ∧
      c4Result.ended = LoopEnd.endMarker ∧
      c4Result.st.lw.writers = []) ∧
    ∀ p : Nat,
      (LazyWriters.init (safe_files_info c4Meta.files) []).get_writer_at_offset p
        = none := by
  refine ⟨by decide, ?_⟩
  intro p
  show (LazyWriters.init [⟨"empty.txt", 0, 0⟩] []).get_writer_at_offset p = none
  unfold LazyWriters.get_writer_at_offset bisectSelect
  simp [LazyWriters.init, sortByStart, insertByStart, List.filter]

/-- C5: for a non-complete writer with `written < size` and no pending
rehash, over a filesystem whose part-file length equals `written` (the
consistency `write_chunk` itself maintains; a fresh writer has no part
file and `written = 0`), `write_chunk data` computes
`n = min (len data) (size - written)`, appends exactly the first `n` bytes
of `data` to the part file, feeds exactly those `n` bytes to the SHA-256
hasher, increases `written` by `n`, and returns `n`; consequently
`written ≤ size` holds afterwards.  When the write finishes the file, the
appended part content moves to the final location (`complete_file`). -/
theorem c5_write_chunk_spec (w : FileWriter) (fs : Wfs) (data : List Nat)
    (hc : w.is_complete = false) (hlt : w.written < w.size)
    (hnr : w.needs_rehash = false)
    (hlen : (fs.partContent.getD []).length = w.written) :
    (w.write_chunk fs data).ret = min data.length (w.size - w.written) ∧
    (w.write_chunk fs data).appended =
      data.take (min data.length (w.size - w.written)) ∧
    (w.write_chunk fs data).fw.written =
      w.written + min data.length (w.size - w.written) ∧
    (w.write_chunk fs data).fw.written ≤ w.size ∧
    (w.write_chunk fs data).fw.hashedBytes =
      w.hashedBytes ++ data.take (min data.length (w.size - w.written)) ∧
    (0 < min data.length (w.size - w.written) →
      ((w.write_chunk fs data).fs.partContent =
          some (fs.partContent.getD [] ++
            data.take (min data.length (w.size - w.written))) ∨
        ((w.write_chunk fs data).fw.is_complete = true ∧
          (w.write_chunk fs data).fs.finalContent =
            some (fs.partContent.getD [] ++
              data.take (min data.length (w.size - w.written)))))) ∧
    (min data.length (w.size - w.written) = 0 →
      (w.write_chunk fs data).fs = fs) := by
  have hens : w.ensure_resume_hash fs = ⟨w, fs, []⟩ := by
    unfold FileWriter.ensure_resume_hash
    rw [if_neg (by simp [hnr])]
  have hminle : min data.length (w.size - w.written) ≤ w.size - w.written :=
    Nat.min_le_right _ _
  unfold FileWriter.write_chunk
  rw [if_neg (by simp [hc]), hens]
  dsimp only
  unfold FileWriter.write_chunk_core
  dsimp only
  set n := min data.length (w.size - w.written) with hn
  by_cases hpos : 0 < n
  · rw [if_pos hpos]
    have hbase : (if w.written > 0 then fs.partContent.getD [] else []) =
        fs.partContent.getD [] := by
      by_cases hz : w.written > 0
      · rw [if_pos hz]
      · rw [if_neg hz]
        have h0 : (fs.partContent.getD []).length = 0 := by omega
        rw [List.length_eq_zero] at h0
        rw [h0]
    rw [hbase]
    by_cases hdone : w.written + n ≥ w.size
    · rw [if_pos hdone]
      unfold FileWriter.complete_file
      dsimp only
      rw [if_pos (⟨by omega, hc⟩ : w.written + n = w.size ∧ w.is_complete = false)]
      exact ⟨rfl, rfl, rfl, by dsimp only; omega, rfl, fun _ => Or.inr ⟨rfl, rfl⟩,
        fun h0 => absurd h0 (by omega)⟩
    · rw [if_neg hdone]
      exact ⟨rfl, rfl, rfl, by dsimp only; omega, rfl, fun _ => Or.inl rfl,
        fun h0 => absurd h0 (by omega)⟩
  · rw [if_neg hpos]
    have h0 : n = 0 := by omega
    rw [h0]
    exact ⟨rfl, by simp, by dsimp only; omega, by dsimp only; omega, by simp,
      fun hp => absurd hp (by simp), fun _ => rfl⟩

/-- Concrete writer for the C5 witness: size 3, one byte written. -/
def c5Writer : FileWriter :=
  { filename := "f", size := 3, offset := 0, written := 1, hashedBytes := [5],
    is_complete := false, needs_rehash := false }

/-- C5 witness: `write_chunk [7,8,9]` on `c5Writer` over a 1-byte part
file writes 2 bytes and keeps `written ≤ size`. -/
theorem c5_write_chunk_spec_witness :
    (c5Writer.write_chunk ⟨some [5], none⟩ [7, 8, 9]).ret = 2 ∧
    (c5Writer.write_chunk ⟨some [5], none⟩ [7, 8, 9]).fw.written ≤ 3 := by
  have h := c5_write_chunk_spec c5Writer ⟨some [5], none⟩ [7, 8, 9] rfl
    (by decide) rfl (by decide)
  exact ⟨h.1, h.2.2.2.1⟩

/-- C6 (amended): `open_for_writing resume_bytes` with `resume_bytes ≥
size` marks the writer complete without opening or truncating the part
file — provided `resume_bytes = 0` or no part file exists.  When
`resume_bytes > 0` and a part file exists, the source's resume branch wins
and the writer instead starts fresh (`written = 0`, fresh hasher, a
`pending` lock update), because its `resume_bytes < size` test fails. -/
theorem c6_open_resume_complete (w : FileWriter) (fs : Wfs) (rb : Nat)
    (hge : rb ≥ w.size) :
    ((rb = 0 ∨ fs.partContent = none) →
      (w.open_for_writing fs rb).fw = { w with is_complete := true } ∧
      (w.open_for_writing fs rb).fs = fs ∧
      (w.open_for_writing fs rb).events =
        [⟨w.filename, Status.completed, w.size, none⟩]) ∧
    ((rb > 0 ∧ fs.partContent.isSome = true) →
      (w.open_for_writing fs rb).fw = { w with written := 0, hashedBytes := [] } ∧
      (w.open_for_writing fs rb).fs = fs ∧
      (w.open_for_writing fs rb).events =
        [⟨w.filename, Status.pending, 0, none⟩]) := by
  constructor
  · intro hcase
    have hcond : ¬(rb > 0 ∧ fs.partContent.isSome = true) := by
      rcases hcase with h | h
      · exact fun hh => absurd hh.1 (by omega)
      · exact fun hh => by rw [h] at hh; exact absurd hh.2 (by simp)
    unfold FileWriter.open_for_writing
    rw [if_neg hcond, if_pos hge]
    exact ⟨rfl, rfl, rfl⟩
  · intro hcase
    unfold FileWriter.open_for_writing
    rw [if_pos hcase, if_neg (fun hh => absurd hh.2 (by omega))]
    exact ⟨rfl, rfl, rfl⟩

/-- C6 witness: both branches of the amended claim at concrete writers. -/
theorem c6_open_resume_complete_witness :
    ((FileWriter.init "g" 2 0).open_for_writing Wfs.empty 2).fw =
      { FileWriter.init "g" 2 0 with is_complete := true } ∧
    ((FileWriter.init "f" 1 0).open_for_writing ⟨some [42], none⟩ 1).fw =
      { FileWriter.init "f" 1 0 with written := 0, hashedBytes := [] } :=
  ⟨((c6_open_resume_complete (FileWriter.init "g" 2 0) Wfs.empty 2
      (by decide)).1 (Or.inr rfl)).1,
   ((c6_open_resume_complete (FileWriter.init "f" 1 0) ⟨some [42], none⟩ 1
      (by decide)).2 ⟨by decide, rfl⟩).1⟩

/-- C6 (counterexample): writer of size 1, part file present with 1 byte,
`resume_bytes = 1 ≥ size`: the resume branch wins, its
`resume_bytes < size` test fails, and the writer starts fresh —
`is_complete` stays `false` and a `pending` update is recorded instead of
a completion, contradicting the claim for this initial filesystem state. -/
theorem c6_counterexample :
    1 ≥ (FileWriter.init "f" 1 0).size ∧
    ((FileWriter.init "f" 1 0).open_for_writing ⟨some [42], none⟩ 1).fw.is_complete
      = false ∧
    ((FileWriter.init "f" 1 0).open_for_writing ⟨some [42], none⟩ 1).events =
      [⟨"f", Status.pending, 0, none⟩] := by
  decide

/-- C10: `write_chunk` on a complete writer returns 0 and leaves every
observable component unchanged: the writer (so `written` and the hasher
state), the filesystem (the part file), and the lock manager (no
`update_file_status` call), with no bytes appended. -/
theorem c10_write_chunk_complete_noop (w : FileWriter) (fs : Wfs)
    (data : List Nat) (h : w.is_complete = true) :
    w.write_chunk fs data = ⟨w, fs, [], [], 0⟩ := by
  unfold FileWriter.write_chunk
  rw [if_pos h]

/-- Concrete complete writer for the C10 witness. -/
def c10Writer : FileWriter :=
  { filename := "f", size := 1, offset := 0, written := 1, hashedBytes := [5],
    is_complete := true, needs_rehash := false }

/-- C10 witness: the no-op theorem at a concrete complete writer. -/
theorem c10_write_chunk_complete_noop_witness :
    c10Writer.write_chunk ⟨some [5], none⟩ [1, 2, 3] =
      ⟨c10Writer, ⟨some [5], none⟩, [], [], 0⟩ :=
  c10_write_chunk_complete_noop c10Writer ⟨some [5], none⟩ [1, 2, 3] rfl

/-- Externally visible steps of the receiver's success epilogue. -/
inductive EpilogueEvent where
  | removeLockFile
  | flushPendingLock
  | sendCompletionSignal
  | shutdownWrite
deriving DecidableEq

/-- The receiver's success epilogue (src/transfer.py 2676-2711), as the
sequence of its externally visible steps paired with whether the lock file
exists just before each step.  The source order is:
`lock_manager.cleanup_on_completion()` unlinks the lock file (2677-2678);
`lock_manager.flush_pending_updates()` re-creates it iff buffered updates
remain (2681-2682 via `_save_lock_file`); the encrypted Completion Signal
is sent (2689-2700); the socket write side is shut down (2704).  In a
clean run every terminal (`completed`) update already forced a flush, so
`pendingUpdates = false` and the lock file is gone when the signal goes
out. -/
def receiverSuccessEpilogue (lockExists pendingUpdates : Bool) :
    List (EpilogueEvent × Bool) :=
  [(EpilogueEvent.removeLockFile, lockExists),
   (EpilogueEvent.flushPendingLock, false),
   (EpilogueEvent.sendCompletionSignal, pendingUpdates),
   (EpilogueEvent.shutdownWrite, pendingUpdates)]

/-- C8 (counterexample): the source removes the lock file FIRST: the
epilogue performs `removeLockFile` (index 0) before `sendCompletionSignal`
(index 2), and in a clean run the lock file no longer exists at the moment
the signal is sent — contradicting the claimed order (signal, shutdown,
then removal) and the claim that the lock file still exists when the
signal is sent. -/
theorem c8_counterexample :
    (receiverSuccessEpilogue true false).map Prod.fst =
      [EpilogueEvent.removeLockFile, EpilogueEvent.flushPendingLock,
       EpilogueEvent.sendCompletionSignal, EpilogueEvent.shutdownWrite] ∧
    (receiverSuccessEpilogue true false)[2]? =
      some (EpilogueEvent.sendCompletionSignal, false) := by
  decide

/-- C8 (amended): on every successful transfer the receiver first removes
the lock file, then flushes pending lock updates, then sends the
Completion Signal, and only then shuts down the write side of the socket;
when no lock updates remain buffered, the lock file has already been
removed at the moment the Completion Signal is sent. -/
theorem c8_epilogue_order (le pu : Bool) :
    (receiverSuccessEpilogue le pu).map Prod.fst =
      [EpilogueEvent.removeLockFile, EpilogueEvent.flushPendingLock,
       EpilogueEvent.sendCompletionSignal, EpilogueEvent.shutdownWrite] ∧
    (pu = false →
      (receiverSuccessEpilogue le pu)[2]? =
        some (EpilogueEvent.sendCompletionSignal, false)) := by
  cases pu
  · exact ⟨rfl, fun _ => rfl⟩
  · exact ⟨rfl, fun h => Bool.noConfusion h⟩

/-- C8 witness: the amended epilogue order at the clean-run instance. -/
theorem c8_epilogue_order_witness :
    (receiverSuccessEpilogue true false).map Prod.fst =
      [EpilogueEvent.removeLockFile, EpilogueEvent.flushPendingLock,
       EpilogueEvent.sendCompletionSignal, EpilogueEvent.shutdownWrite] ∧
    (receiverSuccessEpilogue true false)[2]? =
      some (EpilogueEvent.sendCompletionSignal, false) :=
  ⟨(c8_epilogue_order true false).1, (c8_epilogue_order true false).2 rfl⟩

/-- Names of the methods class `FileWriter` defines
(src/transfer.py 873-1064).  There is no `write` method. -/
def fileWriterMethodNames : List String :=
  ["__init__", "open_for_writing", "_ensure_resume_hash", "write_chunk",
   "complete_file", "get_hash", "reset_for_retry", "needs_data", "close"]

/-- Keys present in every entry of the metadata `files` list the sender
builds (src/transfer.py 1744-1748).  There is no `path` key. -/
def filesInfoKeys : List String := ["filename", "size", "offset"]

/-- Python runtime errors raised inside the retry distribution loop. -/
inductive PyError where
  | keyError (key : String)
  | stopIteration
  | attributeError (attr : String)
deriving DecidableEq

/-- The retry-loop body for one decrypted-and-decompressed chunk
(src/transfer.py 2620-2636): iterate `failed_files` in order, skipping
complete writers; for an incomplete writer the first statement evaluates
`next(f for f in files_info if f['path'] == writer.filename)`.  Metadata
entries carry only the keys in `filesInfoKeys`, so the first evaluation of
`f['path']` raises `KeyError('path')` (`StopIteration` when `files_info`
is empty) — and even with the right key, the later `writer.write(...)`
call would raise `AttributeError` since `FileWriter` defines no `write`
method (`fileWriterMethodNames`). -/
def retryDistributeChunk (failed : List FileWriter) (filesInfo : List FileInfo)
    (chunk : List Nat) : Except PyError (List FileWriter) :=
  match failed with
  | [] => Except.ok []
  | w :: rest =>
    if w.is_complete then
      (retryDistributeChunk rest filesInfo chunk).map (fun ws => w :: ws)
    else if filesInfo.isEmpty then Except.error PyError.stopIteration
    else Except.error (PyError.keyError "path")

/-- One iteration of the retry receive loop after decryption and
decompression: a non-blosc exception `break`s out of the loop with the
writers untouched (src/transfer.py 2638-2649); `true` means the loop would
continue. -/
def retryReceiveChunkStep (failed : List FileWriter) (filesInfo : List FileInfo)
    (chunk : List Nat) : List FileWriter × Bool :=
  match retryDistributeChunk failed filesInfo chunk with
  | Except.ok ws => (ws, true)
  | Except.error _ => (failed, false)

theorem retryDistributeChunk_ok {failed : List FileWriter}
    {filesInfo : List FileInfo} {chunk : List Nat} {ws : List FileWriter}
    (h : retryDistributeChunk failed filesInfo chunk = Except.ok ws) :
    ws = failed := by
  induction failed generalizing ws with
  | nil =>
      unfold retryDistributeChunk at h
      cases h
      rfl
  | cons w rest ih =>
      unfold retryDistributeChunk at h
      by_cases h1 : w.is_complete = true
      · rw [if_pos h1] at h
        rcases hrec : retryDistributeChunk rest filesInfo chunk with e | ws2
        · rw [hrec] at h
          exact absurd h (by simp [Except.map])
        · rw [hrec] at h
          simp only [Except.map] at h
          cases h
          rw [ih hrec]
      · rw [if_neg h1] at h
        by_cases h2 : filesInfo.isEmpty = true
        · rw [if_pos h2] at h
          exact absurd h (by simp)
        · rw [if_neg h2] at h
          exact absurd h (by simp)

/-- C9: the retry receive loop cannot write a byte into any failed writer:
metadata entries have no `path` key (the loop reads `f['path']` while the
sender emits `filename`), `FileWriter` has no `write` method, and the
resulting exception breaks the loop — processing any retry chunk leaves
the failed writers exactly as they were.  This contradicts the claim that
each incoming retry block is written into the still-incomplete failed
writers. -/
theorem c9_retry_loop_writes_nothing :
    (filesInfoKeys.contains "path") = false ∧
    (fileWriterMethodNames.contains "write") = false ∧
    ∀ (failed : List FileWriter) (filesInfo : List FileInfo) (chunk : List Nat),
      (retryReceiveChunkStep failed filesInfo chunk).1 = failed := by
  refine ⟨by decide, by decide, ?_⟩
  intro failed filesInfo chunk
  unfold retryReceiveChunkStep
  rcases hd : retryDistributeChunk failed filesInfo chunk with e | ws
  · rfl
  · dsimp only
    exact retryDistributeChunk_ok hd

end Transfer






